import Mathlib

/- Shallow embedding of src/validator.js from the vee-validate repository.
   A synchronous rule result is a boolean; a Promise-returning rule is
   modelled with immediate resolution (VResult.async b is a promise already
   resolved to b).  A thrown JavaScript exception (a TypeError on a missing
   lookup, or a ValidatorException raised by guardExtend) is modelled as
   Except.error; in the validation pipeline the error value carries the
   ErrorBag state as it stood at the moment of the throw.
   JavaScript string-keyed objects are modelled as insertion-ordered
   association lists, and String.prototype.split with a one-character
   separator as the structural function jsSplit below. -/

namespace VeeValidate

/-- A normalized rule, the output shape of normalizeRule in src/validator.js. -/
structure RuleSpec where
  name : String
  params : Option (List String)
deriving DecidableEq

/-- One recorded error message for a field. -/
structure ErrorEntry where
  field : String
  msg : String
deriving DecidableEq

/-- Modelled from the spec: the Error Bag (the imported src/errorBag.js is not
present under src/).  Per the spec it maps field names to ordered error
entries; we keep one insertion-ordered list of entries tagged with their
field name: add appends an entry, remove deletes the entries of one field,
clear deletes everything. -/
abbrev ErrorBag := List ErrorEntry

/-- ErrorBag.add field msg: append one entry, preserving insertion order. -/
def ErrorBag.add (bag : ErrorBag) (field msg : String) : ErrorBag :=
  bag ++ [⟨field, msg⟩]

/-- ErrorBag.remove field: delete all entries recorded for the field. -/
def ErrorBag.remove (bag : ErrorBag) (field : String) : ErrorBag :=
  bag.filter (fun e => e.field != field)

/-- ErrorBag.clear: delete all entries of all fields. -/
def ErrorBag.clear (_ : ErrorBag) : ErrorBag := []

/-- One element of the list an asynchronous rule resolves to; only its valid
flag is inspected by Validator.test. -/
structure SubResult where
  valid : Bool
deriving DecidableEq

/-- Result of invoking a rule predicate: a plain boolean, or a Promise that
resolves to a list of sub-results (immediate-resolution model). -/
inductive RuleOutcome where
  | sync (b : Bool)
  | async (entries : List SubResult)
deriving DecidableEq

/-- A rule predicate: it receives the value and the params of the rule. -/
abbrev Predicate (α : Type) := α → Option (List String) → RuleOutcome

/-- The process-wide Rules registry, as a string-keyed map. -/
abbrev RulesReg (α : Type) := List (String × Predicate α)

/-- An entry of the Messages catalog: a formatter function, or a value that is
present but not callable (its typeof is not function). -/
inductive CatalogEntry where
  | formatter (f : String → Option (List String) → String)
  | notCallable

/-- The per-locale sub-mapping of the Messages catalog. -/
abbrev LocaleMap := List (String × CatalogEntry)

/-- The process-wide Messages catalog: locale to rule name to entry. -/
abbrev Catalog := List (String × LocaleMap)

/-- Property lookup on a JavaScript-object-like string-keyed map. -/
def lookupKey {β : Type} : List (String × β) → String → Option β
  | [], _ => none
  | (k0, v) :: rest, k => if k0 = k then some v else lookupKey rest k

/-- Property assignment on a string-keyed map: overwrite the existing key in
place, or append a new one. -/
def setKey {β : Type} : List (String × β) → String → β → List (String × β)
  | [], k, v => [(k, v)]
  | (k0, v0) :: rest, k, v =>
    if k0 = k then (k, v) :: rest else (k0, v0) :: setKey rest k v

/-- What validate and test hand back: a plain boolean, or a Promise resolving
to a boolean (immediate-resolution model). -/
inductive VResult where
  | sync (b : Bool)
  | async (b : Bool)
deriving DecidableEq

/-- Per-instance Validator state: the current locale, the field-to-chain
mapping this.validations, and this.errorBag. -/
structure ValidatorState (α : Type) where
  locale : String
  validations : List (String × List RuleSpec)
  errorBag : ErrorBag

/-- JavaScript String.prototype.split with a one-character separator,
accumulator-passing helper: the first argument is the reversed current
segment. -/
def jsSplitAux (sep : Char) : List Char → List Char → List String
  | acc, [] => [String.mk acc.reverse]
  | acc, c :: rest =>
    if c = sep then String.mk acc.reverse :: jsSplitAux sep [] rest
    else jsSplitAux sep (c :: acc) rest

/-- JavaScript String.prototype.split with a one-character separator: every
occurrence of the separator splits, and the result is never empty. -/
def jsSplit (sep : Char) (s : String) : List String :=
  jsSplitAux sep [] s.data

/-- normalizeRule: name is rule.split(colon)[0]; params is null when the
expression has no colon, otherwise rule.split(colon)[1].split(comma) (the
split is over every colon and element 1 is taken, exactly as in the source). -/
def normalizeRule (rule : String) : RuleSpec :=
  let parts := jsSplit ':' rule
  { name := parts.headD ""
    params :=
      match parts with
      | _ :: p1 :: _ => some (jsSplit ',' p1)
      | _ => none }

/-- One field expression: split on the pipe and normalize each piece (the
loop body shared by the constructor and by attach). -/
def parseExpression (expr : String) : List RuleSpec :=
  (jsSplit '|' expr).map normalizeRule

/-- normalize: build the field-to-chain mapping from field-to-expression (a
missing input object normalizes to the empty mapping, which the list model
gets for free). -/
def normalize (validations : List (String × String)) : List (String × List RuleSpec) :=
  validations.map (fun kv => (kv.1, parseExpression kv.2))

/-- The English fallback path of formatErrorMessage, Messages.en applied to
(field, rule.params); none models the TypeError thrown when the English
entry is missing or not callable. -/
def applyEn (cat : Catalog) (field : String) (rule : RuleSpec) : Option String :=
  match lookupKey cat "en" with
  | some sub =>
    match lookupKey sub rule.name with
    | some (CatalogEntry.formatter f) => some (f field rule.params)
    | _ => none
  | none => none

/-- formatErrorMessage: use the current locale entry when the locale
sub-mapping exists and the entry is callable; otherwise fall back to the
English entry. -/
def formatErrorMessage (cat : Catalog) (locale field : String) (rule : RuleSpec) : Option String :=
  match lookupKey cat locale with
  | some sub =>
    match lookupKey sub rule.name with
    | some (CatalogEntry.formatter f) => some (f field rule.params)
    | _ => applyEn cat field rule
  | none => applyEn cat field rule

/-- The Promise reduction inside test:
values.reduce((prev, curr) => prev && curr.valid, true). -/
def reduceValid (entries : List SubResult) : Bool :=
  entries.foldl (fun prev curr => prev && curr.valid) true

/-- test: run one rule against a value, recording a formatted error on
failure.  Except.error models a thrown TypeError (unregistered rule name, or
no resolvable formatter), carrying the bag as it stood at the throw. -/
def test {α : Type} (rules : RulesReg α) (cat : Catalog) (locale : String)
    (bag : ErrorBag) (name : String) (value : α) (rule : RuleSpec) :
    Except ErrorBag (VResult × ErrorBag) :=
  match lookupKey rules rule.name with
  | none => Except.error bag
  | some validator =>
    match validator value rule.params with
    | RuleOutcome.sync b =>
      if b then Except.ok (VResult.sync b, bag)
      else
        match formatErrorMessage cat locale name rule with
        | some m => Except.ok (VResult.sync b, ErrorBag.add bag name m)
        | none => Except.error bag
    | RuleOutcome.async entries =>
      let allValid := reduceValid entries
      if allValid then Except.ok (VResult.async allValid, bag)
      else
        match formatErrorMessage cat locale name rule with
        | some m => Except.ok (VResult.async allValid, ErrorBag.add bag name m)
        | none => Except.error bag

/-- The body of the forEach inside validate: keep only the latest test
result, threading the bag; a pending exception aborts the iteration. -/
def chainStep {α : Type} (rules : RulesReg α) (cat : Catalog) (locale name : String)
    (value : α) (acc : Except ErrorBag (VResult × ErrorBag)) (rule : RuleSpec) :
    Except ErrorBag (VResult × ErrorBag) :=
  match acc with
  | Except.error e => Except.error e
  | Except.ok (_, bag) => test rules cat locale bag name value rule

/-- Running a whole chain, starting from let test = true and the given bag. -/
def runChain {α : Type} (rules : RulesReg α) (cat : Catalog) (locale : String)
    (bag0 : ErrorBag) (name : String) (value : α) (chain : List RuleSpec) :
    Except ErrorBag (VResult × ErrorBag) :=
  chain.foldl (chainStep rules cat locale name value) (Except.ok (VResult.sync true, bag0))

/-- validate: clear the errors of the field, then run its chain keeping the
last test result.  A field with no chain entry makes
this.validations[name].forEach throw a TypeError, after the bag was already
cleared for that field. -/
def validate {α : Type} (rules : RulesReg α) (cat : Catalog) (st : ValidatorState α)
    (name : String) (value : α) : Except ErrorBag (VResult × ErrorBag) :=
  let bag0 := ErrorBag.remove st.errorBag name
  match lookupKey st.validations name with
  | none => Except.error bag0
  | some chain => runChain rules cat st.locale bag0 name value chain

/-- The body of the forEach inside validateAll:
test = this.validate(property, values[property]). -/
def allStep {α : Type} (rules : RulesReg α) (cat : Catalog) (st : ValidatorState α)
    (acc : Except ErrorBag (VResult × ErrorBag)) (pv : String × α) :
    Except ErrorBag (VResult × ErrorBag) :=
  match acc with
  | Except.error e => Except.error e
  | Except.ok (_, bag) => validate rules cat { st with errorBag := bag } pv.1 pv.2

/-- validateAll: clear the whole bag, then validate every supplied field in
order, keeping only the last validate result. -/
def validateAll {α : Type} (rules : RulesReg α) (cat : Catalog) (st : ValidatorState α)
    (values : List (String × α)) : Except ErrorBag (VResult × ErrorBag) :=
  values.foldl (allStep rules cat st) (Except.ok (VResult.sync true, ErrorBag.clear st.errorBag))

/-- attach: replace the chain of the field with the parsed expression and
drop the recorded errors of the field. -/
def attach {α : Type} (st : ValidatorState α) (name checks : String) : ValidatorState α :=
  { st with
      validations := setKey st.validations name (parseExpression checks)
      errorBag := ErrorBag.remove st.errorBag name }

/-- detach: delete this.validations[name]; the error bag is not touched. -/
def detach {α : Type} (st : ValidatorState α) (name : String) : ValidatorState α :=
  { st with validations := st.validations.filter (fun kv => kv.1 != name) }

/-- setLocale: set the locale used for message formatting. -/
def setLocale {α : Type} (st : ValidatorState α) (language : String) : ValidatorState α :=
  { st with locale := language }

/-- The argument of extend: a bare predicate function, or an object whose
validate and getMessage members are callable when present (none models
absent-or-not-callable) and whose messages member is an optional
locale-keyed map of catalog entries. -/
inductive ValidatorSpec (α : Type) where
  | func (f : Predicate α)
  | obj (validate : Option (Predicate α))
        (getMessage : Option (String → Option (List String) → String))
        (messages : Option (List (String × CatalogEntry)))

/-- The two process-wide registries mutated by the extension mechanism. -/
structure Registries (α : Type) where
  rules : RulesReg α
  messages : Catalog

/-- Messages[locale] is created empty when absent, then
Messages[locale][name] is assigned. -/
def setLocaleEntry (cat : Catalog) (locale name : String) (e : CatalogEntry) : Catalog :=
  setKey cat locale (setKey ((lookupKey cat locale).getD []) name e)

/-- guardExtend: the extension-contract checks, in source order; the message
strings abbreviate the ValidatorException messages of the source. -/
def guardExtend {α : Type} (rules : RulesReg α) (name : String) (v : ValidatorSpec α) :
    Except String Unit :=
  if (lookupKey rules name).isSome then
    Except.error "Extension Error: there is an existing validator with the same name."
  else
    match v with
    | ValidatorSpec.func _ => Except.ok ()
    | ValidatorSpec.obj validate getMessage messages =>
      if validate.isNone then
        Except.error "Extension Error: the validator must be a function or have a validate method."
      else if getMessage.isNone && messages.isNone then
        Except.error "Extension Error: the validator must have a getMessage method or have a messages object."
      else Except.ok ()

/-- merge: install the predicate and its message formatters.  A bare function
gets the default English message; an object installs its validate member
(extend only reaches this after guardExtend ensured it is present), its
getMessage as the English formatter when callable, and every locale of its
messages map into the catalog. -/
def merge {α : Type} (regs : Registries α) (name : String) (v : ValidatorSpec α) :
    Registries α :=
  match v with
  | ValidatorSpec.func f =>
    { rules := setKey regs.rules name f
      messages := setLocaleEntry regs.messages "en" name
        (CatalogEntry.formatter (fun field _ => "The " ++ field ++ " value is not valid.")) }
  | ValidatorSpec.obj validate getMessage messages =>
    let rules1 :=
      match validate with
      | some f => setKey regs.rules name f
      | none => regs.rules
    let msgs1 :=
      match getMessage with
      | some g => setLocaleEntry regs.messages "en" name (CatalogEntry.formatter g)
      | none => regs.messages
    let msgs2 :=
      match messages with
      | some ms => ms.foldl (fun acc lm => setLocaleEntry acc lm.1 name lm.2) msgs1
      | none => msgs1
    { rules := rules1, messages := msgs2 }

/-- extend: guard, then merge; a guard failure is the thrown
ValidatorException, and the registries are left unchanged since the guard
runs before any mutation. -/
def extend {α : Type} (regs : Registries α) (name : String) (v : ValidatorSpec α) :
    Except String (Registries α) :=
  match guardExtend regs.rules name v with
  | Except.error e => Except.error e
  | Except.ok _ => Except.ok (merge regs name v)

/-- Rebasing helper for proofs: prepend a bag to both positions of a
pipeline outcome. -/
def shiftBag (bag : ErrorBag) :
    Except ErrorBag (VResult × ErrorBag) → Except ErrorBag (VResult × ErrorBag)
  | Except.error e => Except.error (bag ++ e)
  | Except.ok (r, es) => Except.ok (r, bag ++ es)

/-- Demo predicate for concrete witnesses: fails exactly on the empty string. -/
def demoRequired : Predicate String := fun v _ => RuleOutcome.sync (v != "")

/-- Demo predicate that always fails synchronously. -/
def demoFail : Predicate String := fun _ _ => RuleOutcome.sync false

/-- Demo asynchronous predicate resolving to one valid and one invalid
sub-result. -/
def demoAsyncPair : Predicate String := fun _ _ =>
  RuleOutcome.async [⟨true⟩, ⟨false⟩]

/-- Demo rules registry. -/
def demoRules : RulesReg String :=
  [("required", demoRequired), ("fail", demoFail), ("asyncPair", demoAsyncPair)]

/-- Demo message catalog: English formatters for the demo rules, and an
Arabic sub-mapping whose only entry is present but not callable. -/
def demoCat : Catalog :=
  [("en",
     [("required", CatalogEntry.formatter (fun f _ => "The " ++ f ++ " field is required.")),
      ("fail", CatalogEntry.formatter (fun f _ => "The " ++ f ++ " field is invalid.")),
      ("asyncPair", CatalogEntry.formatter
        (fun f _ => "The " ++ f ++ " field failed an async check."))]),
   ("ar", [("required", CatalogEntry.notCallable)])]

/-- Demo validator state over string values. -/
def demoSt : ValidatorState String :=
  { locale := "en"
    validations :=
      [("a", [⟨"required", none⟩]),
       ("b", [⟨"required", none⟩]),
       ("c", [⟨"fail", none⟩, ⟨"required", none⟩])]
    errorBag := [] }

/-- Demo state for the locale-fallback scenario: Arabic locale, a chain whose
first rule passes and second fails, and a stale recorded error. -/
def demoSt2 : ValidatorState String :=
  { locale := "ar"
    validations := [("cc", [⟨"required", none⟩, ⟨"fail", none⟩])]
    errorBag := [⟨"cc", "stale"⟩] }

/-- Folding the chain step over a pending exception keeps the exception. -/
theorem foldl_chainStep_error {α : Type} (rules : RulesReg α) (cat : Catalog)
    (locale name : String) (value : α) (chain : List RuleSpec) (e : ErrorBag) :
    chain.foldl (chainStep rules cat locale name value) (Except.error e) = Except.error e := by
  induction chain with
  | nil => rfl
  | cons r rest ih => simpa [chainStep] using ih

/-- test only appends to the bag it is given: its outcome is the outcome from
the empty bag, rebased. -/
theorem test_shift {α : Type} (rules : RulesReg α) (cat : Catalog) (locale : String)
    (bag : ErrorBag) (name : String) (value : α) (rule : RuleSpec) :
    test rules cat locale bag name value rule =
      shiftBag bag (test rules cat locale [] name value rule) := by
  cases h1 : lookupKey rules rule.name with
  | none => simp [test, h1, shiftBag]
  | some p =>
    cases h2 : p value rule.params with
    | sync b =>
      cases b with
      | true => simp [test, h1, h2, shiftBag]
      | false =>
        cases h3 : formatErrorMessage cat locale name rule <;>
          simp [test, h1, h2, h3, shiftBag, ErrorBag.add]
    | async entries =>
      cases h4 : reduceValid entries <;>
        cases h3 : formatErrorMessage cat locale name rule <;>
          simp [test, h1, h2, h3, h4, shiftBag, ErrorBag.add]

/-- Rebasing composes by appending. -/
theorem shiftBag_shiftBag (b1 b2 : ErrorBag) (x : Except ErrorBag (VResult × ErrorBag)) :
    shiftBag b1 (shiftBag b2 x) = shiftBag (b1 ++ b2) x := by
  cases x with
  | error e => simp [shiftBag]
  | ok p => cases p; simp [shiftBag]

/-- A whole chain run only appends to the bag it starts from. -/
theorem foldl_chainStep_shift {α : Type} (rules : RulesReg α) (cat : Catalog)
    (locale name : String) (value : α) (chain : List RuleSpec) :
    ∀ (res : VResult) (bag : ErrorBag),
      chain.foldl (chainStep rules cat locale name value) (Except.ok (res, bag)) =
        shiftBag bag (chain.foldl (chainStep rules cat locale name value) (Except.ok (res, []))) := by
  induction chain with
  | nil => intro res bag; simp [shiftBag]
  | cons r rest ih =>
    intro res bag
    simp only [List.foldl_cons, chainStep]
    rw [test_shift rules cat locale bag name value r]
    cases h : test rules cat locale [] name value r with
    | error e => simp [shiftBag, foldl_chainStep_error]
    | ok p =>
      obtain ⟨r1, es⟩ := p
      rw [show shiftBag bag (Except.ok (r1, es)) = Except.ok (r1, bag ++ es) from rfl,
        ih r1 (bag ++ es), ih r1 es, shiftBag_shiftBag]

/-- Every entry test appends is tagged with the validated field. -/
theorem test_fields {α : Type} (rules : RulesReg α) (cat : Catalog) (locale name : String)
    (value : α) (rule : RuleSpec) (res : VResult) (es : ErrorBag)
    (h : test rules cat locale [] name value rule = Except.ok (res, es)) :
    ∀ e ∈ es, e.field = name := by
  cases h1 : lookupKey rules rule.name with
  | none => simp [test, h1] at h
  | some p =>
    cases h2 : p value rule.params with
    | sync b =>
      cases b with
      | true =>
        have hv : test rules cat locale [] name value rule =
            Except.ok (VResult.sync true, ([] : ErrorBag)) := by simp [test, h1, h2]
        rw [hv] at h
        injection h with h5
        injection h5 with h6 h7
        intro e he
        rw [← h7] at he
        cases he
      | false =>
        cases h3 : formatErrorMessage cat locale name rule with
        | none => simp [test, h1, h2, h3] at h
        | some m =>
          have hv : test rules cat locale [] name value rule =
              Except.ok (VResult.sync false, ([⟨name, m⟩] : ErrorBag)) := by
            simp [test, h1, h2, h3, ErrorBag.add]
          rw [hv] at h
          injection h with h5
          injection h5 with h6 h7
          intro e he
          rw [← h7] at he
          simp at he
          rw [he]
    | async entries =>
      cases h4 : reduceValid entries with
      | true =>
        have hv : test rules cat locale [] name value rule =
            Except.ok (VResult.async true, ([] : ErrorBag)) := by simp [test, h1, h2, h4]
        rw [hv] at h
        injection h with h5
        injection h5 with h6 h7
        intro e he
        rw [← h7] at he
        cases he
      | false =>
        cases h3 : formatErrorMessage cat locale name rule with
        | none => simp [test, h1, h2, h4, h3] at h
        | some m =>
          have hv : test rules cat locale [] name value rule =
              Except.ok (VResult.async false, ([⟨name, m⟩] : ErrorBag)) := by
            simp [test, h1, h2, h4, h3, ErrorBag.add]
          rw [hv] at h
          injection h with h5
          injection h5 with h6 h7
          intro e he
          rw [← h7] at he
          simp at he
          rw [he]

/-- Every entry a whole chain run appends is tagged with the validated field. -/
theorem foldl_chainStep_fields {α : Type} (rules : RulesReg α) (cat : Catalog)
    (locale name : String) (value : α) (chain : List RuleSpec) :
    ∀ (res r1 : VResult) (es : ErrorBag),
      chain.foldl (chainStep rules cat locale name value) (Except.ok (res, [])) =
        Except.ok (r1, es) →
      ∀ e ∈ es, e.field = name := by
  induction chain with
  | nil =>
    intro res r1 es h e he
    simp only [List.foldl_nil] at h
    cases h
    cases he
  | cons r rest ih =>
    intro res r1 es h e he
    simp only [List.foldl_cons, chainStep] at h
    cases htest : test rules cat locale [] name value r with
    | error e2 =>
      rw [htest, foldl_chainStep_error] at h
      cases h
    | ok p =>
      obtain ⟨rmid, es1⟩ := p
      rw [htest, foldl_chainStep_shift] at h
      cases h2 : rest.foldl (chainStep rules cat locale name value)
          (Except.ok (rmid, [])) with
      | error e3 => rw [h2] at h; simp [shiftBag] at h
      | ok q =>
        obtain ⟨r2, es2⟩ := q
        rw [h2] at h
        simp only [shiftBag, Except.ok.injEq, Prod.mk.injEq] at h
        obtain ⟨hr, hes⟩ := h
        subst hes
        rcases List.mem_append.mp he with h3 | h3
        · exact test_fields rules cat locale name value r rmid es1 htest e h3
        · exact ih rmid r2 es2 h2 e h3

/-- Removing a field distributes over concatenation of bags. -/
theorem errorBagRemove_append (a b : ErrorBag) (f : String) :
    ErrorBag.remove (a ++ b) f = ErrorBag.remove a f ++ ErrorBag.remove b f := by
  simp [ErrorBag.remove, List.filter_append]

/-- Removing a field from a bag holding only entries of that field empties it. -/
theorem errorBagRemove_of_fields (es : ErrorBag) (f : String)
    (h : ∀ e ∈ es, e.field = f) : ErrorBag.remove es f = [] := by
  induction es with
  | nil => rfl
  | cons e rest ih =>
    have h1 : e.field = f := h e (by simp)
    have h2 : ErrorBag.remove rest f = [] := ih (fun x hx => h x (by simp [hx]))
    simpa [ErrorBag.remove, List.filter_cons, h1] using h2

/-- Filtering twice with the same predicate is filtering once. -/
theorem filter_self_idem {γ : Type} (p : γ → Bool) (l : List γ) :
    (l.filter p).filter p = l.filter p := by
  induction l with
  | nil => rfl
  | cons a rest ih => by_cases h : p a <;> simp [List.filter_cons, h, ih]

/-- Removing a field twice is the same as removing it once. -/
theorem errorBagRemove_remove (bag : ErrorBag) (f : String) :
    ErrorBag.remove (ErrorBag.remove bag f) f = ErrorBag.remove bag f := by
  simp [ErrorBag.remove, filter_self_idem]

/-- Looking up the deleted key after a keyed filter gives nothing. -/
theorem lookupKey_filter_self {β : Type} (m : List (String × β)) (f : String) :
    lookupKey (m.filter (fun kv => kv.1 != f)) f = none := by
  induction m with
  | nil => rfl
  | cons kv rest ih =>
    by_cases h : kv.1 = f <;> simp [List.filter_cons, h, lookupKey, ih]

/-- Looking up any other key is unchanged by a keyed filter. -/
theorem lookupKey_filter_other {β : Type} (m : List (String × β)) (f g : String)
    (h : g ≠ f) :
    lookupKey (m.filter (fun kv => kv.1 != f)) g = lookupKey m g := by
  induction m with
  | nil => rfl
  | cons kv rest ih =>
    by_cases h1 : kv.1 = f
    · have h2 : kv.1 ≠ g := by rw [h1]; exact Ne.symm h
      simp [List.filter_cons, h1, lookupKey, h2, Ne.symm h, ih]
    · by_cases h2 : kv.1 = g <;> simp [List.filter_cons, h1, lookupKey, h2, h, ih]

/-- Assignment makes the assigned key resolve to the assigned value. -/
theorem lookupKey_setKey_self {β : Type} (m : List (String × β)) (k : String) (v : β) :
    lookupKey (setKey m k v) k = some v := by
  induction m with
  | nil => simp [setKey, lookupKey]
  | cons kv rest ih =>
    by_cases h : kv.1 = k
    · simp [setKey, h, lookupKey]
    · obtain ⟨k0, v0⟩ := kv
      simp only at h
      simp [setKey, h, lookupKey, ih]

/-- The reduce over the valid flags, generalized over its initial value. -/
theorem foldl_and_valid (b : Bool) (entries : List SubResult) :
    entries.foldl (fun prev curr => prev && curr.valid) b =
      (b && entries.all (fun s => s.valid)) := by
  induction entries generalizing b with
  | nil => simp
  | cons s rest ih => simp [List.foldl_cons, List.all_cons, ih, Bool.and_assoc]

/-- The reduce of test is the conjunction of all valid flags. -/
theorem reduceValid_eq_all (entries : List SubResult) :
    reduceValid entries = entries.all (fun s => s.valid) := by
  simp [reduceValid, foldl_and_valid]

/-- C1: for a field whose attached chain consists of synchronous rules,
validate returns the result of the last RuleSpec evaluated in declared order
(not the conjunction across the chain), and when the chain attached to the
field is empty, validate returns true. -/
theorem validate_last_rule {α : Type} (rules : RulesReg α) (cat : Catalog)
    (st : ValidatorState α) (f : String) (v : α) :
    (lookupKey st.validations f = some [] →
      validate rules cat st f v =
        Except.ok (VResult.sync true, ErrorBag.remove st.errorBag f)) ∧
    (∀ (c : List RuleSpec) (r : RuleSpec) (p : Predicate α) (b : Bool)
        (res : VResult) (bag : ErrorBag),
      lookupKey st.validations f = some (c ++ [r]) →
      lookupKey rules r.name = some p →
      p v r.params = RuleOutcome.sync b →
      validate rules cat st f v = Except.ok (res, bag) →
      res = VResult.sync b) := by
  constructor
  · intro h
    simp [validate, h, runChain]
  · intro c r p b res bag hchain hp hb hrun
    have hval : validate rules cat st f v =
        runChain rules cat st.locale (ErrorBag.remove st.errorBag f) f v (c ++ [r]) := by
      simp [validate, hchain]
    rw [hval] at hrun
    unfold runChain at hrun
    rw [List.foldl_append] at hrun
    simp only [List.foldl_cons, List.foldl_nil] at hrun
    cases hA : List.foldl (chainStep rules cat st.locale f v)
        (Except.ok (VResult.sync true, ErrorBag.remove st.errorBag f)) c with
    | error e =>
      rw [hA] at hrun
      simp [chainStep] at hrun
    | ok q =>
      obtain ⟨r0, bagMid⟩ := q
      rw [hA] at hrun
      simp only [chainStep] at hrun
      cases b with
      | true =>
        have hv : test rules cat st.locale bagMid f v r =
            Except.ok (VResult.sync true, bagMid) := by simp [test, hp, hb]
        rw [hv] at hrun
        injection hrun with h5
        injection h5 with h6 h7
        exact h6.symm
      | false =>
        cases h3 : formatErrorMessage cat st.locale f r with
        | none =>
          have hv : test rules cat st.locale bagMid f v r = Except.error bagMid := by
            simp [test, hp, hb, h3]
          rw [hv] at hrun
          cases hrun
        | some m =>
          have hv : test rules cat st.locale bagMid f v r =
              Except.ok (VResult.sync false, ErrorBag.add bagMid f m) := by
            simp [test, hp, hb, h3]
          rw [hv] at hrun
          injection hrun with h5
          injection h5 with h6 h7
          exact h6.symm

/-- C1 witness: a concrete two-rule chain whose first rule records an error
and whose last rule passes; validate returns the result of the last rule. -/
theorem validate_last_rule_witness :
    lookupKey demoSt.validations "c" = some ([⟨"fail", none⟩] ++ [⟨"required", none⟩]) ∧
    validate demoRules demoCat demoSt "c" "x" =
      Except.ok (VResult.sync true, [⟨"c", "The c field is invalid."⟩]) ∧
    VResult.sync true = VResult.sync true :=
  ⟨rfl, rfl,
    (validate_last_rule demoRules demoCat demoSt "c" "x").2
      [⟨"fail", none⟩] ⟨"required", none⟩ demoRequired true (VResult.sync true)
      [⟨"c", "The c field is invalid."⟩] rfl rfl rfl rfl⟩

/-- C4 counterexample: the claim says params of r:a:b is the comma-split of
the entire substring after the first colon, namely a:b as one token; the
source instead takes element 1 of the full colon split, so params is not
some [a:b]. -/
theorem normalizeRule_not_first_colon_split :
    (normalizeRule "r:a:b").params ≠ some ["a:b"] := by decide

/-- C4 (amended): when the expression contains a colon, params is the
comma-split of element 1 of the full colon split (the text between the first
and second colon); text after a second colon is discarded. -/
theorem normalizeRule_second_segment (rule n p1 : String) (rest : List String)
    (h : jsSplit ':' rule = n :: p1 :: rest) :
    normalizeRule rule = { name := n, params := some (jsSplit ',' p1) } := by
  simp [normalizeRule, h]

/-- C4 witness: r:a:b splits into three segments and normalizes with
params [a], dropping the b after the second colon. -/
theorem normalizeRule_second_segment_witness :
    jsSplit ':' "r:a:b" = ["r", "a", "b"] ∧
    normalizeRule "r:a:b" = { name := "r", params := some ["a"] } :=
  ⟨by decide, by
    rw [normalizeRule_second_segment "r:a:b" "r" "a" ["b"] (by decide)]
    decide⟩

/-- C5: parsing a:x,y|b yields the two rule specs in order, the first with
comma-split params and the second with null params. -/
theorem parseExpression_example :
    parseExpression "a:x,y|b" =
      [{ name := "a", params := some ["x", "y"] }, { name := "b", params := none }] := by
  decide

/-- C10: validating a field that has no chain entry throws a generic runtime
failure (the TypeError from this.validations[name].forEach) instead of
returning a result, and a successful validate run implies the field had an
attached chain. -/
theorem validate_unattached_throws {α : Type} (rules : RulesReg α) (cat : Catalog)
    (st : ValidatorState α) (f : String) (v : α) :
    (lookupKey st.validations f = none →
      validate rules cat st f v = Except.error (ErrorBag.remove st.errorBag f)) ∧
    (∀ (res : VResult) (bag : ErrorBag),
      validate rules cat st f v = Except.ok (res, bag) →
      lookupKey st.validations f ≠ none) := by
  constructor
  · intro h
    simp [validate, h]
  · intro res bag hrun h
    rw [show validate rules cat st f v = Except.error (ErrorBag.remove st.errorBag f) from by
      simp [validate, h]] at hrun
    cases hrun

/-- C10 witness: the demo state has no chain for field zzz and validate
throws on it. -/
theorem validate_unattached_throws_witness :
    lookupKey demoSt.validations "zzz" = none ∧
    validate demoRules demoCat demoSt "zzz" "x" =
      Except.error (ErrorBag.remove demoSt.errorBag "zzz") :=
  ⟨rfl, (validate_unattached_throws demoRules demoCat demoSt "zzz" "x").1 rfl⟩

/-- C3: when a rule resolves asynchronously to a list of sub-results, test
resolves to the logical AND of the valid flags (the reduce equals the all,
and the empty list reduces to true), and appends exactly one formatted error
entry if and only if that conjunction is false. -/
theorem test_async_reduction {α : Type} (rules : RulesReg α) (cat : Catalog)
    (locale : String) (bag : ErrorBag) (name : String) (value : α) (rule : RuleSpec)
    (p : Predicate α) (entries : List SubResult) (m : String)
    (hp : lookupKey rules rule.name = some p)
    (he : p value rule.params = RuleOutcome.async entries)
    (hm : formatErrorMessage cat locale name rule = some m) :
    reduceValid entries = entries.all (fun s => s.valid) ∧
    reduceValid ([] : List SubResult) = true ∧
    test rules cat locale bag name value rule =
      Except.ok (VResult.async (reduceValid entries),
        if reduceValid entries then bag else ErrorBag.add bag name m) ∧
    (ErrorBag.add bag name m).length = bag.length + 1 := by
  refine ⟨reduceValid_eq_all entries, rfl, ?_, by simp [ErrorBag.add]⟩
  cases h4 : reduceValid entries with
  | true => simp [test, hp, he, h4]
  | false => simp [test, hp, he, h4, hm]

/-- C3 witness: an asynchronous rule resolving to one valid and one invalid
sub-result yields overall false and exactly one recorded error. -/
theorem test_async_reduction_witness :
    reduceValid [⟨true⟩, ⟨false⟩] = false ∧
    test demoRules demoCat "en" [] "d" "x" ⟨"asyncPair", none⟩ =
      Except.ok (VResult.async false, [⟨"d", "The d field failed an async check."⟩]) := by
  have h := (test_async_reduction demoRules demoCat "en" [] "d" "x" ⟨"asyncPair", none⟩
    demoAsyncPair [⟨true⟩, ⟨false⟩] "The d field failed an async check." rfl rfl rfl).2.2.1
  exact ⟨rfl, by rw [h]; rfl⟩

/-- C7: detach removes only the chain entry of the field: the error bag is
left entirely unchanged, the detached field no longer resolves, and every
other field resolves as before. -/
theorem detach_frame {α : Type} (st : ValidatorState α) (f : String) :
    (detach st f).errorBag = st.errorBag ∧
    lookupKey (detach st f).validations f = none ∧
    ∀ g, g ≠ f → lookupKey (detach st f).validations g = lookupKey st.validations g := by
  refine ⟨rfl, ?_, ?_⟩
  · exact lookupKey_filter_self st.validations f
  · intro g hg
    exact lookupKey_filter_other st.validations f g hg

/-- C7 witness: detaching field a keeps its stale error entry and the chain
of field b. -/
theorem detach_frame_witness :
    (detach ({ demoSt with errorBag := [⟨"a", "stale"⟩] } : ValidatorState String)
        "a").errorBag = [⟨"a", "stale"⟩] ∧
    lookupKey (detach ({ demoSt with errorBag := [⟨"a", "stale"⟩] } : ValidatorState String)
        "a").validations "a" = none ∧
    lookupKey (detach ({ demoSt with errorBag := [⟨"a", "stale"⟩] } : ValidatorState String)
        "a").validations "b" = lookupKey demoSt.validations "b" := by
  have h := detach_frame ({ demoSt with errorBag := [⟨"a", "stale"⟩] } : ValidatorState String) "a"
  exact ⟨h.1, h.2.1, h.2.2 "b" (by decide)⟩

/-- C9: a two-rule chain of which exactly one synchronous rule fails records
exactly one error entry, formatted for the failing rule whichever position
it holds (the returned value is that of the last rule either way), and
formatErrorMessage uses the active locale formatter, falling back to English
exactly when the locale sub-mapping is absent or its entry is not a callable
formatter. -/
theorem validate_one_failing_of_two {α : Type} (rules : RulesReg α) (cat : Catalog) :
    (∀ (st : ValidatorState α) (f : String) (v : α) (r1 r2 : RuleSpec)
        (p1 p2 : Predicate α) (m : String),
      lookupKey st.validations f = some [r1, r2] →
      lookupKey rules r1.name = some p1 →
      p1 v r1.params = RuleOutcome.sync true →
      lookupKey rules r2.name = some p2 →
      p2 v r2.params = RuleOutcome.sync false →
      formatErrorMessage cat st.locale f r2 = some m →
      validate rules cat st f v =
        Except.ok (VResult.sync false, ErrorBag.remove st.errorBag f ++ [⟨f, m⟩])) ∧
    (∀ (st : ValidatorState α) (f : String) (v : α) (r1 r2 : RuleSpec)
        (p1 p2 : Predicate α) (m : String),
      lookupKey st.validations f = some [r1, r2] →
      lookupKey rules r1.name = some p1 →
      p1 v r1.params = RuleOutcome.sync false →
      lookupKey rules r2.name = some p2 →
      p2 v r2.params = RuleOutcome.sync true →
      formatErrorMessage cat st.locale f r1 = some m →
      validate rules cat st f v =
        Except.ok (VResult.sync true, ErrorBag.remove st.errorBag f ++ [⟨f, m⟩])) ∧
    (∀ (locale field : String) (rule : RuleSpec),
      lookupKey cat locale = none →
      formatErrorMessage cat locale field rule = applyEn cat field rule) ∧
    (∀ (locale field : String) (rule : RuleSpec) (sub : LocaleMap),
      lookupKey cat locale = some sub →
      lookupKey sub rule.name = some CatalogEntry.notCallable →
      formatErrorMessage cat locale field rule = applyEn cat field rule) ∧
    (∀ (locale field : String) (rule : RuleSpec) (sub : LocaleMap)
        (fm : String → Option (List String) → String),
      lookupKey cat locale = some sub →
      lookupKey sub rule.name = some (CatalogEntry.formatter fm) →
      formatErrorMessage cat locale field rule = some (fm field rule.params)) := by
  refine ⟨?_, ?_, ?_, ?_, ?_⟩
  · intro st f v r1 r2 p1 p2 m hchain hp1 hb1 hp2 hb2 hm
    have hval : validate rules cat st f v =
        runChain rules cat st.locale (ErrorBag.remove st.errorBag f) f v [r1, r2] := by
      simp [validate, hchain]
    rw [hval]
    unfold runChain
    simp only [List.foldl_cons, List.foldl_nil, chainStep]
    have h1 : test rules cat st.locale (ErrorBag.remove st.errorBag f) f v r1 =
        Except.ok (VResult.sync true, ErrorBag.remove st.errorBag f) := by
      simp [test, hp1, hb1]
    rw [h1]
    simp only [chainStep]
    have h2 : test rules cat st.locale (ErrorBag.remove st.errorBag f) f v r2 =
        Except.ok (VResult.sync false, ErrorBag.add (ErrorBag.remove st.errorBag f) f m) := by
      simp [test, hp2, hb2, hm]
    rw [h2]
    simp [ErrorBag.add]
  · intro st f v r1 r2 p1 p2 m hchain hp1 hb1 hp2 hb2 hm
    have hval : validate rules cat st f v =
        runChain rules cat st.locale (ErrorBag.remove st.errorBag f) f v [r1, r2] := by
      simp [validate, hchain]
    rw [hval]
    unfold runChain
    simp only [List.foldl_cons, List.foldl_nil, chainStep]
    have h1 : test rules cat st.locale (ErrorBag.remove st.errorBag f) f v r1 =
        Except.ok (VResult.sync false, ErrorBag.add (ErrorBag.remove st.errorBag f) f m) := by
      simp [test, hp1, hb1, hm]
    rw [h1]
    simp only [chainStep]
    have h2 : test rules cat st.locale (ErrorBag.add (ErrorBag.remove st.errorBag f) f m)
        f v r2 =
        Except.ok (VResult.sync true, ErrorBag.add (ErrorBag.remove st.errorBag f) f m) := by
      simp [test, hp2, hb2]
    rw [h2]
    simp [ErrorBag.add]
  · intro locale field rule h
    simp [formatErrorMessage, h]
  · intro locale field rule sub h h2
    simp [formatErrorMessage, h, h2]
  · intro locale field rule sub fm h h2
    simp [formatErrorMessage, h, h2]

/-- C9 witness: under the ar locale the failing second rule of a
pass-then-fail chain records exactly one entry, a fail-then-pass chain also
records exactly one entry formatted for its failing first rule, and the ar
entry for required is present but not callable, so formatting falls back to
English. -/
theorem validate_one_failing_of_two_witness :
    validate demoRules demoCat demoSt2 "cc" "x" =
      Except.ok (VResult.sync false,
        ErrorBag.remove demoSt2.errorBag "cc" ++ [⟨"cc", "The cc field is invalid."⟩]) ∧
    validate demoRules demoCat demoSt "c" "x" =
      Except.ok (VResult.sync true,
        ErrorBag.remove demoSt.errorBag "c" ++ [⟨"c", "The c field is invalid."⟩]) ∧
    formatErrorMessage demoCat "ar" "a" ⟨"required", none⟩ =
      applyEn demoCat "a" ⟨"required", none⟩ := by
  refine ⟨?_, ?_, ?_⟩
  · exact (validate_one_failing_of_two demoRules demoCat).1 demoSt2 "cc" "x"
      ⟨"required", none⟩ ⟨"fail", none⟩ demoRequired demoFail "The cc field is invalid."
      rfl rfl rfl rfl rfl rfl
  · exact (validate_one_failing_of_two demoRules demoCat).2.1 demoSt "c" "x"
      ⟨"fail", none⟩ ⟨"required", none⟩ demoFail demoRequired "The c field is invalid."
      rfl rfl rfl rfl rfl rfl
  · exact (validate_one_failing_of_two demoRules demoCat).2.2.2.1 "ar" "a" ⟨"required", none⟩
      [("required", CatalogEntry.notCallable)] rfl rfl

/-- C6: the bag entries of a field are removed immediately before the field
is re-validated, so the bag after validate is the field-cleared prior bag
plus entries all tagged with the field, and validating the same field twice
with the same value reproduces exactly the same bag and result. -/
theorem validate_clears_before_revalidation {α : Type} (rules : RulesReg α) (cat : Catalog)
    (st : ValidatorState α) (f : String) (v : α) (res : VResult) (bag1 : ErrorBag)
    (h : validate rules cat st f v = Except.ok (res, bag1)) :
    (∃ es, bag1 = ErrorBag.remove st.errorBag f ++ es ∧ ∀ e ∈ es, e.field = f) ∧
    validate rules cat { st with errorBag := bag1 } f v = Except.ok (res, bag1) := by
  cases hc : lookupKey st.validations f with
  | none =>
    rw [show validate rules cat st f v = Except.error (ErrorBag.remove st.errorBag f) from by
      simp [validate, hc]] at h
    cases h
  | some chain =>
    have hval : validate rules cat st f v =
        runChain rules cat st.locale (ErrorBag.remove st.errorBag f) f v chain := by
      simp [validate, hc]
    rw [hval] at h
    unfold runChain at h
    rw [foldl_chainStep_shift] at h
    cases h2 : List.foldl (chainStep rules cat st.locale f v)
        (Except.ok (VResult.sync true, [])) chain with
    | error e3 =>
      rw [h2] at h
      simp [shiftBag] at h
    | ok q =>
      obtain ⟨r2, es⟩ := q
      rw [h2] at h
      rw [show shiftBag (ErrorBag.remove st.errorBag f) (Except.ok (r2, es)) =
          Except.ok (r2, ErrorBag.remove st.errorBag f ++ es) from rfl] at h
      injection h with h5
      injection h5 with h6 h7
      have hfields : ∀ e ∈ es, e.field = f :=
        foldl_chainStep_fields rules cat st.locale f v chain (VResult.sync true) r2 es h2
      constructor
      · exact ⟨es, h7.symm, hfields⟩
      · have hbag0 : ErrorBag.remove bag1 f = ErrorBag.remove st.errorBag f := by
          rw [← h7, errorBagRemove_append, errorBagRemove_remove,
            errorBagRemove_of_fields es f hfields, List.append_nil]
        have hval2 : validate rules cat { st with errorBag := bag1 } f v =
            runChain rules cat st.locale (ErrorBag.remove bag1 f) f v chain := by
          simp [validate, hc]
        rw [hval2, hbag0]
        unfold runChain
        rw [foldl_chainStep_shift, h2]
        rw [show shiftBag (ErrorBag.remove st.errorBag f) (Except.ok (r2, es)) =
            Except.ok (r2, ErrorBag.remove st.errorBag f ++ es) from rfl]
        rw [h6, h7]

/-- C6 witness: validating field a twice in a row, the second run reproduces
exactly the single error entry of the first, with no accumulation. -/
theorem validate_clears_before_revalidation_witness :
    validate demoRules demoCat demoSt "a" "" =
      Except.ok (VResult.sync false, [⟨"a", "The a field is required."⟩]) ∧
    validate demoRules demoCat
        { demoSt with errorBag := [⟨"a", "The a field is required."⟩] } "a" "" =
      Except.ok (VResult.sync false, [⟨"a", "The a field is required."⟩]) :=
  ⟨rfl, (validate_clears_before_revalidation demoRules demoCat demoSt "a" ""
      (VResult.sync false) [⟨"a", "The a field is required."⟩] rfl).2⟩

/-- C2: validateAll first clears the whole bag (its outcome is independent of
the prior bag), validates the supplied fields in order, and returns the
result of the last field validated rather than a conjunction across fields;
concretely a failing first field and a passing second field yield true while
the first field keeps a recorded error. -/
theorem validateAll_last_field {α : Type} (rules : RulesReg α) (cat : Catalog) :
    (∀ (st : ValidatorState α) (b : ErrorBag) (values : List (String × α)),
      validateAll rules cat { st with errorBag := b } values =
        validateAll rules cat st values) ∧
    (∀ (st : ValidatorState α) (values : List (String × α)) (k : String) (v : α)
        (res : VResult) (bag : ErrorBag),
      validateAll rules cat st (values ++ [(k, v)]) = Except.ok (res, bag) →
      ∃ bagMid, validate rules cat { st with errorBag := bagMid } k v =
        Except.ok (res, bag)) ∧
    validateAll demoRules demoCat demoSt [("a", ""), ("b", "2")] =
      Except.ok (VResult.sync true, [⟨"a", "The a field is required."⟩]) := by
  refine ⟨?_, ?_, rfl⟩
  · intro st b values
    rfl
  · intro st values k v res bag h
    unfold validateAll at h
    rw [List.foldl_append] at h
    simp only [List.foldl_cons, List.foldl_nil] at h
    cases hA : List.foldl (allStep rules cat st)
        (Except.ok (VResult.sync true, ErrorBag.clear st.errorBag)) values with
    | error e =>
      rw [hA] at h
      simp [allStep] at h
    | ok q =>
      obtain ⟨r0, bagMid⟩ := q
      rw [hA] at h
      simp only [allStep] at h
      exact ⟨bagMid, h⟩

/-- C2 witness: the prior bag is irrelevant, and the concrete run over a
failing field a then passing field b returns the result of b while a keeps
its recorded error. -/
theorem validateAll_last_field_witness :
    validateAll demoRules demoCat { demoSt with errorBag := [⟨"z", "old"⟩] }
        [("a", ""), ("b", "2")] =
      validateAll demoRules demoCat demoSt [("a", ""), ("b", "2")] ∧
    (∃ bagMid, validate demoRules demoCat { demoSt with errorBag := bagMid } "b" "2" =
      Except.ok (VResult.sync true, [⟨"a", "The a field is required."⟩])) := by
  constructor
  · exact (validateAll_last_field demoRules demoCat).1 demoSt [⟨"z", "old"⟩]
      [("a", ""), ("b", "2")]
  · exact (validateAll_last_field demoRules demoCat).2.1 demoSt [("a", "")] "b" "2"
      (VResult.sync true) [⟨"a", "The a field is required."⟩] rfl

/-- C8: extend throws the extension-contract exception exactly when the name
is already registered, or the spec is an object without a callable validate
member, or an object with neither a callable getMessage nor a messages
mapping; and after any successful extend, a second extend under the same
name always fails. -/
theorem extend_guard_conditions {α : Type} :
    (∀ (regs : Registries α) (name : String) (v : ValidatorSpec α),
      (∃ e, extend regs name v = Except.error e) ↔
        ((lookupKey regs.rules name).isSome = true ∨
         (∃ g m, v = ValidatorSpec.obj none g m) ∨
         (∃ p, v = ValidatorSpec.obj p none none))) ∧
    (∀ (regs regs2 : Registries α) (name : String) (v w : ValidatorSpec α),
      extend regs name v = Except.ok regs2 →
      ∃ e, extend regs2 name w = Except.error e) := by
  constructor
  · intro regs name v
    constructor
    · intro hex
      obtain ⟨e, he⟩ := hex
      by_cases h1 : (lookupKey regs.rules name).isSome = true
      · exact Or.inl h1
      · right
        cases v with
        | func f =>
          exfalso
          simp [extend, guardExtend, h1] at he
        | obj validate getMessage messages =>
          cases validate with
          | none => exact Or.inl ⟨getMessage, messages, rfl⟩
          | some p =>
            cases getMessage with
            | some g =>
              exfalso
              simp [extend, guardExtend, h1] at he
            | none =>
              cases messages with
              | some ms =>
                exfalso
                simp [extend, guardExtend, h1] at he
              | none => exact Or.inr ⟨some p, rfl⟩
    · intro h
      rcases h with h1 | hcase | hcase
      · exact ⟨"Extension Error: there is an existing validator with the same name.",
          by simp [extend, guardExtend, h1]⟩
      · obtain ⟨g, m, rfl⟩ := hcase
        by_cases h1 : (lookupKey regs.rules name).isSome = true
        · exact ⟨"Extension Error: there is an existing validator with the same name.",
            by simp [extend, guardExtend, h1]⟩
        · exact ⟨"Extension Error: the validator must be a function or have a validate method.",
            by simp [extend, guardExtend, h1]⟩
      · obtain ⟨p, rfl⟩ := hcase
        by_cases h1 : (lookupKey regs.rules name).isSome = true
        · exact ⟨"Extension Error: there is an existing validator with the same name.",
            by simp [extend, guardExtend, h1]⟩
        · cases p with
          | none =>
            exact ⟨"Extension Error: the validator must be a function or have a validate method.",
              by simp [extend, guardExtend, h1]⟩
          | some pp =>
            exact
              ⟨"Extension Error: the validator must have a getMessage method or have a messages object.",
                by simp [extend, guardExtend, h1]⟩
  · intro regs regs2 name v w h
    have hsome : (lookupKey regs2.rules name).isSome = true := by
      by_cases h1 : (lookupKey regs.rules name).isSome = true
      · exfalso
        simp [extend, guardExtend, h1] at h
      · cases v with
        | func f =>
          have h2 : merge regs name (ValidatorSpec.func f) = regs2 := by
            simpa [extend, guardExtend, h1] using h
          rw [← h2]
          simp [merge, lookupKey_setKey_self]
        | obj validate getMessage messages =>
          cases validate with
          | none =>
            exfalso
            simp [extend, guardExtend, h1] at h
          | some p =>
            cases getMessage with
            | some g =>
              have h2 : merge regs name (ValidatorSpec.obj (some p) (some g) messages) =
                  regs2 := by
                simpa [extend, guardExtend, h1] using h
              rw [← h2]
              simp [merge, lookupKey_setKey_self]
            | none =>
              cases messages with
              | none =>
                exfalso
                simp [extend, guardExtend, h1] at h
              | some ms =>
                have h2 : merge regs name (ValidatorSpec.obj (some p) none (some ms)) =
                    regs2 := by
                  simpa [extend, guardExtend, h1] using h
                rw [← h2]
                simp [merge, lookupKey_setKey_self]
    exact ⟨"Extension Error: there is an existing validator with the same name.",
      by simp [extend, guardExtend, hsome]⟩

/-- C8 witness: an object spec with nothing callable is rejected, a bare
function is accepted, and a second extend under the same name fails. -/
theorem extend_guard_conditions_witness :
    (∃ e, extend (Registries.mk ([] : RulesReg String) []) "newrule"
        (ValidatorSpec.obj none none none) = Except.error e) ∧
    extend (Registries.mk ([] : RulesReg String) []) "newrule"
        (ValidatorSpec.func demoRequired) =
      Except.ok (merge (Registries.mk ([] : RulesReg String) []) "newrule"
        (ValidatorSpec.func demoRequired)) ∧
    (∃ e, extend (merge (Registries.mk ([] : RulesReg String) []) "newrule"
        (ValidatorSpec.func demoRequired)) "newrule" (ValidatorSpec.func demoFail) =
      Except.error e) := by
  refine ⟨?_, rfl, ?_⟩
  · exact ((@extend_guard_conditions String).1 (Registries.mk [] []) "newrule"
      (ValidatorSpec.obj none none none)).mpr (Or.inr (Or.inl ⟨none, none, rfl⟩))
  · exact (@extend_guard_conditions String).2 (Registries.mk [] [])
      (merge (Registries.mk [] []) "newrule" (ValidatorSpec.func demoRequired)) "newrule"
      (ValidatorSpec.func demoRequired) (ValidatorSpec.func demoFail) rfl

end VeeValidate
